import Mathlib

/-!
# Verification of the pymed extraction and sectioning engine

A shallow embedding of `pymed/helpers.py` and `pymed/article.py`.

XML trees (Python `xml.etree.ElementTree.Element`) are modelled as a mutual
inductive: an element carries a tag, an attribute list, optional direct text,
a list of children and optional tail text (the text that follows the element's
closing tag inside its parent).  The XPath subset actually used by the code
(`tag`, `.//tag`, `.//tag[@a='v']`, `.//t1/t2`, ...) is modelled as a list of
steps, each step being a child or descendant axis with a tag and attribute
predicates, exactly mirroring ElementTree's `findall` semantics for those
paths (document order, no duplicates for the paths in use).
-/

mutual

inductive Element : Type where
  | mk (tag : String) (attrs : List (String × String)) (text : Option String)
       (children : Children) (tail : Option String)

inductive Children : Type where
  | nil : Children
  | cons (e : Element) (es : Children) : Children

end

/-- Tag name of an element. -/
def Element.tag : Element → String
  | .mk t _ _ _ _ => t

/-- Attribute list of an element (Python `elem.attrib`; `elem.get k` is the
first binding of `k`, attributes being unique in XML). -/
def Element.attrs : Element → List (String × String)
  | .mk _ a _ _ _ => a

/-- Direct text of an element (Python `elem.text`, `None` when absent). -/
def Element.text : Element → Option String
  | .mk _ _ t _ _ => t

/-- Children of an element, as the auxiliary `Children` spine. -/
def Element.childrenC : Element → Children
  | .mk _ _ _ c _ => c

/-- Tail text of an element (Python `elem.tail`). -/
def Element.tail : Element → Option String
  | .mk _ _ _ _ t => t

def Children.toList : Children → List Element
  | .nil => []
  | .cons e es => e :: Children.toList es

def Children.ofList : List Element → Children
  | [] => .nil
  | e :: es => .cons e (Children.ofList es)

/-- Direct children of an element as a list (Python `for sub in elem`). -/
def Element.childList (e : Element) : List Element :=
  e.childrenC.toList

/-- Convenience constructor taking the children as a plain list. -/
def mkEl (tag : String) (attrs : List (String × String)) (text : Option String)
    (children : List Element) (tail : Option String) : Element :=
  .mk tag attrs text (Children.ofList children) tail

/-- Python `elem.get k`: the value of attribute `k`, `None` when absent. -/
def Element.attr (e : Element) (k : String) : Option String :=
  (e.attrs.find? (fun kv => kv.1 == k)).map (fun kv => kv.2)

mutual

/-- All proper descendants of an element, in document (preorder) order.
This is what ElementTree's `.//` axis ranges over. -/
def Element.descendants : Element → List Element
  | .mk _ _ _ cs _ => Children.descList cs

def Children.descList : Children → List Element
  | .nil => []
  | .cons e es => (e :: e.descendants) ++ Children.descList es

end

/-- A text fragment as yielded by Python's `Element.itertext`: `None` and the
empty string are skipped (`if t: yield t`). -/
def optFrag : Option String → List String
  | none => []
  | some s => if s = "" then [] else [s]

mutual

/-- Python `Element.itertext()`: the element's own text if truthy, then for
each child recursively its `itertext` followed by the child's tail if truthy. -/
def Element.itertext : Element → List String
  | .mk _ _ t cs _ => optFrag t ++ Children.itertexts cs

def Children.itertexts : Children → List String
  | .nil => []
  | .cons e es => (e.itertext ++ optFrag e.tail) ++ Children.itertexts es

end

/-- One step of the XPath subset used by the code: a `child` step matches
direct children (`tag`), a `desc` step matches descendants at any depth
(`.//tag`); each step carries `[@key='value']` attribute predicates. -/
inductive Step : Type where
  | child (tag : String) (preds : List (String × String))
  | desc (tag : String) (preds : List (String × String))

/-- Whether an element matches a step's tag and attribute predicates. -/
def stepMatches (d : Element) (tag : String) (preds : List (String × String)) : Bool :=
  d.tag == tag && preds.all (fun kv => d.attr kv.1 == some kv.2)

/-- Apply one path step to a node set, in document order. -/
def applyStep (es : List Element) : Step → List Element
  | .child t ps => es.flatMap (fun e => e.childList.filter (fun c => stepMatches c t ps))
  | .desc t ps => es.flatMap (fun e => e.descendants.filter (fun c => stepMatches c t ps))

/-- `elem.findall(path)` for the XPath subset in use. -/
def findall (e : Element) (p : List Step) : List Element :=
  p.foldl applyStep [e]

/-- `elem.find(path)`: the first match of `findall`, `None` when there is none. -/
def findFirst (e : Element) (p : List Step) : Option Element :=
  (findall e p).head?

/-- `elem.findtext(path)` (default `None`): the direct text of the first match,
with `None` text rendered as the empty string. -/
def findtext (e : Element) (p : List Step) : Option String :=
  (findall e p).head?.map (fun el => el.text.getD "")

/-- Is `pat` a prefix of `l`? -/
def isPre : List Char → List Char → Bool
  | [], _ => true
  | _ :: _, [] => false
  | a :: as, b :: bs => a == b && isPre as bs

/-- Does `l` contain `pat` as a contiguous sublist? -/
def hasInfix (pat : List Char) : List Char → Bool
  | [] => isPre pat []
  | c :: rest => isPre pat (c :: rest) || hasInfix pat rest

/-- Python's substring test `sub in s`. -/
def strContains (s sub : String) : Bool :=
  hasInfix sub.toList s.toList

/-- Python's default `str.strip` whitespace set (ASCII part). -/
def pyIsSpace (c : Char) : Bool :=
  c == ' ' || c == '\t' || c == '\n' || c == '\r' || c == '\x0b' || c == '\x0c'

/-- Python `s.strip()`: leading and trailing whitespace removed. -/
def pyStrip (s : String) : String :=
  String.mk (((s.data.dropWhile pyIsSpace).reverse.dropWhile pyIsSpace).reverse)

/-- Python `s.lower()` (ASCII case mapping, which covers every title the
classifier compares). -/
def pyLower (s : String) : String :=
  String.mk (s.data.map Char.toLower)

/-- Plain in-order concatenation of strings, the shape of the `ret_str +=`
accumulation loops in `helpers.py`. -/
def sjoin : List String → String
  | [] => ""
  | s :: rest => s ++ sjoin rest

/-- Python `sep.join(l)`. -/
def joinSep (sep : String) : List String → String
  | [] => ""
  | [s] => s
  | s :: rest => s ++ sep ++ joinSep sep rest

/-- The shared text-fragment rendering in `helpers.py`:
`" ".join(subtext.strip() for subtext in node.itertext())`. -/
def renderText (e : Element) : String :=
  joinSep " " (e.itertext.map pyStrip)

/-- `helpers.getContent`: find all matches of `path`, return `default` when
there are none, otherwise join the direct texts of the matches that carry
text with `separator`. -/
def getContent (e : Element) (path : List Step) (dflt : Option String)
    (separator : String) : Option String :=
  let result := findall e path
  if result.length = 0 then dflt
  else some (joinSep separator (result.filterMap Element.text))

/-- The per-section piece of `helpers.getAbstract`'s accumulation: title
rendering followed by `": "` when a direct `title` child exists, then each
direct `p` child rendered and followed by `"\n"`.  (The source guards the
paragraph loop with `if sec.find('p') != None`, which is equivalent to the
loop over `sec.findall('p')` simply being empty.) -/
def abstractSecChunk (sec : Element) : String :=
  (match (findall sec [Step.child "title" []]).head? with
   | some t => renderText t ++ ": "
   | none => "") ++
  sjoin ((findall sec [Step.child "p" []]).map (fun p => renderText p ++ "\n"))

/-- `helpers.getAbstract`: for each match of `path`, if it has a direct `sec`
child walk all its `sec` descendants accumulating `abstractSecChunk`s,
otherwise render each direct child followed by `"\n"`; return `default`
when nothing accumulated. -/
def getAbstract (e : Element) (path : List Step) (dflt : Option String) : Option String :=
  let s := sjoin ((findall e path).map (fun top =>
    if ((findall top [Step.child "sec" []]).head?).isSome then
      sjoin ((findall top [Step.desc "sec" []]).map abstractSecChunk)
    else
      sjoin (top.childList.map (fun sub => renderText sub ++ "\n"))))
  if s.length = 0 then dflt else some s

/-- The per-section piece of `helpers.getBody`'s accumulation: identical to
`abstractSecChunk` except paragraphs are followed by `"\n\n"`. -/
def bodySecChunk (sec : Element) : String :=
  (match (findall sec [Step.child "title" []]).head? with
   | some t => renderText t ++ ": "
   | none => "") ++
  sjoin ((findall sec [Step.child "p" []]).map (fun p => renderText p ++ "\n\n"))

/-- `helpers.getBody`: like `getAbstract` but with `"\n\n"` separators. -/
def getBody (e : Element) (path : List Step) (dflt : Option String) : Option String :=
  let s := sjoin ((findall e path).map (fun top =>
    if ((findall top [Step.child "sec" []]).head?).isSome then
      sjoin ((findall top [Step.desc "sec" []]).map bodySecChunk)
    else
      sjoin (top.childList.map (fun sub => renderText sub ++ "\n\n"))))
  if s.length = 0 then dflt else some s

/-- The amount one section contributes to a canonical bucket in
`helpers.getSection`: nothing unless the section has a direct `title` child
whose lower-cased direct text (`sec.findtext('title').lower()`) contains the
canonical `name` as a substring; on a match, the full fragment rendering of
the title, `": "`, then every `p` descendant (`sec.findall('.//p')`) rendered
and followed by `"\n\n"`. -/
def sectionContribution (sec : Element) (name : String) : String :=
  match (findall sec [Step.child "title" []]).head? with
  | none => ""
  | some title =>
    if strContains (pyLower (title.text.getD "")) name then
      renderText title ++ ": " ++
        sjoin ((findall sec [Step.desc "p" []]).map (fun p => renderText p ++ "\n\n"))
    else ""

/-- `helpers.getSection`: walk all matches of `path` in document order,
accumulating each section's contribution for `name`; return `default` when
the accumulated string is empty. -/
def getSection (e : Element) (path : List Step) (name : String)
    (dflt : Option String) : Option String :=
  let s := sjoin ((findall e path).map (fun sec => sectionContribution sec name))
  if s.length = 0 then dflt else some s

/-- `helpers.getBodySections`: the five independent `getSection` passes, one
per canonical name, returned as a tuple. -/
def getBodySections (e : Element) (path : List Step) (dflt : Option String) :
    Option String × Option String × Option String × Option String × Option String :=
  (getSection e path "introduction" dflt,
   getSection e path "methods" dflt,
   getSection e path "results" dflt,
   getSection e path "discussion" dflt,
   getSection e path "conclusion" dflt)

/-- The slicing loop of `helpers.batches`: `for index in range(0, length, n):
yield iterable[index : min(index + n, length)]`.  The first argument is
recursion fuel (any bound on the number of loop iterations; `batches` passes
the list length, which suffices whenever `n ≥ 1`); the loop body takes the
next `n` elements and continues past them. -/
def batchesAux {α : Type} : Nat → Nat → List α → List (List α)
  | _, _, [] => []
  | 0, _, _ :: _ => []
  | fuel + 1, n, a :: rest => (a :: rest).take n :: batchesAux fuel n ((a :: rest).drop n)

/-- `helpers.batches`: Python's `range(0, length, 0)` raises `ValueError`,
modelled as `none`; for `n ≥ 1` the generator yields the successive slices. -/
def batches {α : Type} (l : List α) (n : Nat) : Option (List (List α)) :=
  if n = 0 then none else some (batchesAux l.length n l)

/-- One decimal digit, or `none`. -/
def digitVal (c : Char) : Option Nat :=
  if c.isDigit then some (c.toNat - 48) else none

/-- A non-empty all-digit run parsed as a natural number, `none` otherwise. -/
def parseDigits : List Char → Option Nat
  | [] => none
  | cs => cs.foldl (fun acc c =>
      match acc, digitVal c with
      | some n, some d => some (n * 10 + d)
      | _, _ => none) (some 0)

/-- Python `int(s)` on a string: surrounding whitespace stripped, an optional
sign, then a non-empty digit run; anything else raises `ValueError`,
modelled as `none`. -/
def pyIntStr (s : String) : Option Int :=
  match (pyStrip s).toList with
  | '+' :: rest => (parseDigits rest).map Int.ofNat
  | '-' :: rest => (parseDigits rest).map (fun n => -(n : Int))
  | cs => (parseDigits cs).map Int.ofNat

/-- `int(x)` where `x` is a string or `None`: `int(None)` raises `TypeError`,
modelled as `none`. -/
def pyIntOpt : Option String → Option Int
  | none => none
  | some s => pyIntStr s

/-- Gregorian leap year, as used by `datetime.date`. -/
def isLeap (y : Int) : Bool :=
  y % 4 == 0 && (y % 100 != 0 || y % 400 == 0)

/-- Days in a month, as used by `datetime.date`. -/
def daysInMonth (y m : Int) : Int :=
  if m == 2 then (if isLeap y then 29 else 28)
  else if m == 4 || m == 6 || m == 9 || m == 11 then 30
  else 31

/-- The argument ranges `datetime.date(year, month, day)` accepts; outside
them it raises `ValueError`. -/
def validDate (y m d : Int) : Bool :=
  decide (1 ≤ y ∧ y ≤ 9999 ∧ 1 ≤ m ∧ m ≤ 12 ∧ 1 ≤ d ∧ d ≤ daysInMonth y m)

/-- A successfully constructed `datetime.date`. -/
structure PyDate where
  year : Int
  month : Int
  day : Int
deriving DecidableEq

/-- The shared tail of both `_extractPublicationDate` methods: extract year
(no default), month (default `"1"`) and day (default `"1"`) as text under the
selected date node, parse all three as integers and build a `datetime.date`;
any raised error is caught by the surrounding `except`, modelled as `none`. -/
def dateOfNode (pd : Element) (ytag mtag dtag : String) : Option PyDate :=
  match pyIntOpt (getContent pd [Step.desc ytag []] none "\n"),
        pyIntOpt (getContent pd [Step.desc mtag []] (some "1") "\n"),
        pyIntOpt (getContent pd [Step.desc dtag []] (some "1") "\n") with
  | some y, some m, some d => if validDate y m d then some (PyDate.mk y m d) else none
  | _, _, _ => none

/-- One author record of `PubMedArticle._extractAuthors`. -/
structure PubMedAuthor where
  lastname : Option String
  firstname : Option String
  initials : Option String
  affiliation : Option String
deriving DecidableEq

/-- One author record of `PMCArticle._extractAuthors`. -/
structure PMCAuthor where
  surname : Option String
  givenNames : Option String
deriving DecidableEq

/-- `PubMedArticle._extractPubMedId`: `.//ArticleId[@IdType='pubmed']`. -/
def pubmedExtractPubMedId (e : Element) : Option String :=
  getContent e [Step.desc "ArticleId" [("IdType", "pubmed")]] none "\n"

/-- `PubMedArticle._extractTitle`: `.//ArticleTitle`. -/
def pubmedExtractTitle (e : Element) : Option String :=
  getContent e [Step.desc "ArticleTitle" []] none "\n"

/-- `PubMedArticle._extractKeywords`: the list comprehension
`[keyword.text for keyword in xml_element.findall(".//Keyword") if keyword is not None]`.
The guard `keyword is not None` is always true (`findall` yields elements,
never `None`), so every matched node's `.text` lands in the list, including
`None` texts. -/
def pubmedExtractKeywords (e : Element) : List (Option String) :=
  (findall e [Step.desc "Keyword" []]).map Element.text

/-- `PubMedArticle._extractJournal`: `.//Journal/Title`. -/
def pubmedExtractJournal (e : Element) : Option String :=
  getContent e [Step.desc "Journal" [], Step.child "Title" []] none "\n"

/-- `PubMedArticle._extractAbstract`: `.//AbstractText`. -/
def pubmedExtractAbstract (e : Element) : Option String :=
  getContent e [Step.desc "AbstractText" []] none "\n"

/-- `PubMedArticle._extractCopyrights`: `.//CopyrightInformation`. -/
def pubmedExtractCopyrights (e : Element) : Option String :=
  getContent e [Step.desc "CopyrightInformation" []] none "\n"

/-- `PubMedArticle._extractDoi`: `.//ArticleId[@IdType='doi']`. -/
def pubmedExtractDoi (e : Element) : Option String :=
  getContent e [Step.desc "ArticleId" [("IdType", "doi")]] none "\n"

/-- The date node `PubMedArticle._extractPublicationDate` selects:
`xml_element.find(".//PubMedPubDate[@PubStatus='pubmed']")`. -/
def pubmedSelectedDateNode (e : Element) : Option Element :=
  findFirst e [Step.desc "PubMedPubDate" [("PubStatus", "pubmed")]]

/-- `PubMedArticle._extractPublicationDate`: when the selected node is `None`
the `getContent` call raises `AttributeError`, caught by the `except`,
yielding `None`; otherwise year/month/day are extracted and parsed under the
same `except`. -/
def pubmedExtractPublicationDate (e : Element) : Option PyDate :=
  match pubmedSelectedDateNode e with
  | none => none
  | some pd => dateOfNode pd "Year" "Month" "Day"

/-- `PubMedArticle._extractAuthors`. -/
def pubmedExtractAuthors (e : Element) : List PubMedAuthor :=
  (findall e [Step.desc "Author" []]).map (fun a =>
    { lastname := getContent a [Step.desc "LastName" []] none "\n"
      firstname := getContent a [Step.desc "ForeName" []] none "\n"
      initials := getContent a [Step.desc "Initials" []] none "\n"
      affiliation := getContent a [Step.desc "AffiliationInfo" [], Step.child "Affiliation" []] none "\n" })

/-- The fields of `PubMedArticle` (its `__slots__`). -/
structure PubMedRecord where
  pubmed_id : Option String
  title : Option String
  abstract : Option String
  keywords : List (Option String)
  journal : Option String
  publication_date : Option PyDate
  authors : List PubMedAuthor
  copyrights : Option String
  doi : Option String
  xml : Element

/-- `PubMedArticle._initializeFromXML`: each field is populated by its own
extractor from the same element. -/
def pubmedInit (e : Element) : PubMedRecord :=
  { pubmed_id := pubmedExtractPubMedId e
    title := pubmedExtractTitle e
    abstract := pubmedExtractAbstract e
    keywords := pubmedExtractKeywords e
    journal := pubmedExtractJournal e
    publication_date := pubmedExtractPublicationDate e
    authors := pubmedExtractAuthors e
    copyrights := pubmedExtractCopyrights e
    doi := pubmedExtractDoi e
    xml := e }

/-- `PMCArticle._extractPubMedId`: `.//article-id[@pub-id-type='pmc']`. -/
def pmcExtractPubMedId (e : Element) : Option String :=
  getContent e [Step.desc "article-id" [("pub-id-type", "pmc")]] none "\n"

/-- `PMCArticle._extractTitle`: `.//title-group/article-title`. -/
def pmcExtractTitle (e : Element) : Option String :=
  getContent e [Step.desc "title-group" [], Step.child "article-title" []] none "\n"

/-- `PMCArticle._extractKeywords`: same vacuous `if keyword is not None`
guard as the PubMed variant, over `.//kwd-group/kwd`. -/
def pmcExtractKeywords (e : Element) : List (Option String) :=
  (findall e [Step.desc "kwd-group" [], Step.child "kwd" []]).map Element.text

/-- `PMCArticle._extractJournal`: `.//journal-title`. -/
def pmcExtractJournal (e : Element) : Option String :=
  getContent e [Step.desc "journal-title" []] none "\n"

/-- `PMCArticle._extractAbstract`: `getAbstract` over `.//abstract`. -/
def pmcExtractAbstract (e : Element) : Option String :=
  getAbstract e [Step.desc "abstract" []] none

/-- `PMCArticle._extractBody`: `getBody` over `.//body`. -/
def pmcExtractBody (e : Element) : Option String :=
  getBody e [Step.desc "body" []] none

/-- `PMCArticle._extractBodySections`: `getBodySections` over `.//body/sec`. -/
def pmcExtractBodySections (e : Element) :
    Option String × Option String × Option String × Option String × Option String :=
  getBodySections e [Step.desc "body" [], Step.child "sec" []] none

/-- `PMCArticle._extractCopyrights`: `.//permissions/copyright-statement`. -/
def pmcExtractCopyrights (e : Element) : Option String :=
  getContent e [Step.desc "permissions" [], Step.child "copyright-statement" []] none "\n"

/-- `PMCArticle._extractDoi`: `.//article-id[@pub-id-type='doi']`. -/
def pmcExtractDoi (e : Element) : Option String :=
  getContent e [Step.desc "article-id" [("pub-id-type", "doi")]] none "\n"

/-- The date node `PMCArticle._extractPublicationDate` selects: the loop
`for date in findall(".//pub-date"): if date.get('pub-type') == 'epub':
publication_date = date` keeps the *last* epub-typed node; if none, the first
`.//pub-date[@date-type='pub'][@publication-format='electronic']` node; if
none, the first `.//pub-date` node. -/
def pmcSelectedDateNode (e : Element) : Option Element :=
  let dates := findall e [Step.desc "pub-date" []]
  match dates.foldl
      (fun acc d => if d.attr "pub-type" == some "epub" then some d else acc) none with
  | some d => some d
  | none =>
    match findFirst e [Step.desc "pub-date" [("date-type", "pub"), ("publication-format", "electronic")]] with
    | some d => some d
    | none => dates.head?

/-- `PMCArticle._extractPublicationDate`: like the PubMed variant but with
the PMC node selection and lower-case `year`/`month`/`day` tags. -/
def pmcExtractPublicationDate (e : Element) : Option PyDate :=
  match pmcSelectedDateNode e with
  | none => none
  | some pd => dateOfNode pd "year" "month" "day"

/-- `PMCArticle._extractAuthors`:
`.//contrib-group/contrib[@contrib-type='author']/name`. -/
def pmcExtractAuthors (e : Element) : List PMCAuthor :=
  (findall e [Step.desc "contrib-group" [],
              Step.child "contrib" [("contrib-type", "author")],
              Step.child "name" []]).map (fun a =>
    { surname := getContent a [Step.desc "surname" []] none "\n"
      givenNames := getContent a [Step.desc "given-names" []] none "\n" })

/-- The fields of `PMCArticle` (its `__slots__`). -/
structure PMCRecord where
  pubmed_id : Option String
  title : Option String
  abstract : Option String
  keywords : List (Option String)
  journal : Option String
  publication_date : Option PyDate
  authors : List PMCAuthor
  body : Option String
  introduction : Option String
  methods : Option String
  results : Option String
  discussion : Option String
  conclusion : Option String
  copyrights : Option String
  doi : Option String
  xml : Element

/-- `PMCArticle._initializeFromXML`. -/
def pmcInit (e : Element) : PMCRecord :=
  { pubmed_id := pmcExtractPubMedId e
    title := pmcExtractTitle e
    abstract := pmcExtractAbstract e
    keywords := pmcExtractKeywords e
    journal := pmcExtractJournal e
    publication_date := pmcExtractPublicationDate e
    authors := pmcExtractAuthors e
    body := pmcExtractBody e
    introduction := (pmcExtractBodySections e).1
    methods := (pmcExtractBodySections e).2.1
    results := (pmcExtractBodySections e).2.2.1
    discussion := (pmcExtractBodySections e).2.2.2.1
    conclusion := (pmcExtractBodySections e).2.2.2.2
    copyrights := pmcExtractCopyrights e
    doi := pmcExtractDoi e
    xml := e }

theorem batchesAux_nil {α : Type} (fuel n : Nat) : batchesAux fuel n ([] : List α) = [] := by
  cases fuel <;> rfl

theorem batchesAux_ne_nil {α : Type} (n : Nat) (fuel : Nat) (l : List α)
    (hf : l.length ≤ fuel) (hl : l ≠ []) : batchesAux fuel n l ≠ [] := by
  cases l with
  | nil => exact absurd rfl hl
  | cons a rest =>
    cases fuel with
    | zero => simp at hf
    | succ fuel => simp [batchesAux]

theorem batchesAux_flatten {α : Type} (n : Nat) (hn : 0 < n) :
    ∀ (fuel : Nat) (l : List α), l.length ≤ fuel → (batchesAux fuel n l).flatten = l := by
  intro fuel
  induction fuel with
  | zero =>
    intro l hl
    have : l = [] := List.eq_nil_of_length_eq_zero (Nat.le_zero.mp hl)
    subst this; rfl
  | succ fuel ih =>
    intro l hl
    cases l with
    | nil => rfl
    | cons a rest =>
      have hdrop : ((a :: rest).drop n).length ≤ fuel := by
        simp only [List.length_drop, List.length_cons] at *
        omega
      simp only [batchesAux, List.flatten_cons, ih _ hdrop, List.take_append_drop]

theorem batchesAux_length {α : Type} (n : Nat) (hn : 0 < n) :
    ∀ (fuel : Nat) (l : List α), l.length ≤ fuel →
      (batchesAux fuel n l).length = (l.length + n - 1) / n := by
  intro fuel
  induction fuel with
  | zero =>
    intro l hl
    have : l = [] := List.eq_nil_of_length_eq_zero (Nat.le_zero.mp hl)
    subst this
    simp [batchesAux_nil, Nat.div_eq_of_lt (by omega : n - 1 < n)]
  | succ fuel ih =>
    intro l hl
    cases l with
    | nil => simp [batchesAux_nil, Nat.div_eq_of_lt (by omega : n - 1 < n)]
    | cons a rest =>
      have hdrop : ((a :: rest).drop n).length ≤ fuel := by
        simp only [List.length_drop, List.length_cons] at *
        omega
      have ihd := ih _ hdrop
      simp only [batchesAux, List.length_cons, ihd, List.length_drop, List.length_cons]
      generalize rest.length = m
      by_cases h : n ≤ m + 1
      · rw [show m + 1 - n + n - 1 = m by omega, show m + 1 + n - 1 = m + n by omega,
            Nat.add_div_right _ hn]
      · rw [show m + 1 - n = 0 by omega, show m + 1 + n - 1 = m + n by omega,
            Nat.add_div_right _ hn, Nat.div_eq_of_lt (by omega : 0 + n - 1 < n),
            Nat.div_eq_of_lt (by omega : m < n)]

theorem batchesAux_dropLast {α : Type} (n : Nat) (hn : 0 < n) :
    ∀ (fuel : Nat) (l : List α), l.length ≤ fuel →
      ∀ c ∈ (batchesAux fuel n l).dropLast, c.length = n := by
  intro fuel
  induction fuel with
  | zero =>
    intro l hl
    have : l = [] := List.eq_nil_of_length_eq_zero (Nat.le_zero.mp hl)
    subst this; simp [batchesAux_nil]
  | succ fuel ih =>
    intro l hl c hc
    cases l with
    | nil => simp [batchesAux_nil] at hc
    | cons a rest =>
      have hdrop : ((a :: rest).drop n).length ≤ fuel := by
        simp only [List.length_drop, List.length_cons] at *
        omega
      simp only [batchesAux] at hc
      by_cases hd : (a :: rest).drop n = []
      · rw [hd, batchesAux_nil] at hc
        simp at hc
      · have hne := batchesAux_ne_nil n fuel _ hdrop hd
        obtain ⟨y, ys, hy⟩ := List.exists_cons_of_ne_nil hne
        rw [hy] at hc
        rw [List.dropLast_cons₂] at hc
        rcases List.mem_cons.mp hc with h1 | h2
        · subst h1
          have hlen0 : (List.drop n (a :: rest)).length ≠ 0 := fun h0 =>
            hd (List.eq_nil_of_length_eq_zero h0)
          simp only [List.length_drop, List.length_cons] at hlen0
          simp only [List.length_take, List.length_cons]
          omega
        · have := ih _ hdrop c
          rw [hy] at this
          exact this h2

theorem batchesAux_getLast {α : Type} (n : Nat) (hn : 0 < n) :
    ∀ (fuel : Nat) (l : List α), l.length ≤ fuel → l ≠ [] →
      ∃ lc, (batchesAux fuel n l).getLast? = some lc ∧
        lc.length = l.length - n * ((batchesAux fuel n l).length - 1) := by
  intro fuel
  induction fuel with
  | zero =>
    intro l hl hne
    exact absurd (List.eq_nil_of_length_eq_zero (Nat.le_zero.mp hl)) hne
  | succ fuel ih =>
    intro l hl hne
    cases l with
    | nil => exact absurd rfl hne
    | cons a rest =>
      have hdrop : ((a :: rest).drop n).length ≤ fuel := by
        simp only [List.length_drop, List.length_cons] at *
        omega
      by_cases hd : (a :: rest).drop n = []
      · have hlen : (a :: rest).length ≤ n := by
          have := congrArg List.length hd
          simp only [List.length_drop, List.length_cons, List.length_nil] at this ⊢
          omega
        refine ⟨a :: rest, ?_, ?_⟩
        · simp only [batchesAux, hd, batchesAux_nil, List.take_of_length_le hlen]
          rfl
        · simp only [batchesAux, hd, batchesAux_nil, List.length_cons, List.length_nil,
            Nat.zero_add, Nat.sub_self, Nat.mul_zero, Nat.sub_zero]
      · have hne2 := batchesAux_ne_nil n fuel _ hdrop hd
        obtain ⟨lc, hlc1, hlc2⟩ := ih _ hdrop hd
        refine ⟨lc, ?_, ?_⟩
        · simp only [batchesAux]
          obtain ⟨y, ys, hy⟩ := List.exists_cons_of_ne_nil hne2
          rw [hy, List.getLast?_cons_cons, ← hy]
          exact hlc1
        · have hcount : 1 ≤ (batchesAux fuel n ((a :: rest).drop n)).length :=
            List.length_pos.mpr hne2
          simp only [batchesAux, List.length_cons]
          rw [List.length_drop, List.length_cons] at hlc2
          generalize hk : (batchesAux fuel n ((a :: rest).drop n)).length = k at hlc2 hcount
          obtain ⟨k', rfl⟩ : ∃ k', k = k' + 1 := ⟨k - 1, by omega⟩
          rw [hlc2]
          simp only [Nat.add_sub_cancel, Nat.mul_add, Nat.mul_one]
          omega

/-- C8: for every sequence of length `L` and chunk size `n ≥ 1`, `batches`
yields exactly `⌈L/n⌉ = (L + n - 1) / n` chunks in order, every chunk except
possibly the last has length `n`, the last has length `L - n * (⌈L/n⌉ - 1)`,
and the concatenation of the chunks is the original sequence. -/
theorem claim_c8 {α : Type} (l : List α) (n : Nat) (hn : 1 ≤ n) :
    ∃ bs, batches l n = some bs ∧
      bs.length = (l.length + n - 1) / n ∧
      bs.flatten = l ∧
      (∀ c ∈ bs.dropLast, c.length = n) ∧
      (l ≠ [] → ∃ lc, bs.getLast? = some lc ∧
        lc.length = l.length - n * (bs.length - 1)) := by
  have hn0 : 0 < n := hn
  refine ⟨batchesAux l.length n l, ?_, ?_, ?_, ?_, ?_⟩
  · simp [batches, Nat.pos_iff_ne_zero.mp hn0]
  · exact batchesAux_length n hn0 l.length l le_rfl
  · exact batchesAux_flatten n hn0 l.length l le_rfl
  · exact batchesAux_dropLast n hn0 l.length l le_rfl
  · exact batchesAux_getLast n hn0 l.length l le_rfl

/-- Witness for C8 at the spec's concrete instance: a 7-element sequence
with chunk size 3 yields chunks of lengths `[3, 3, 1]` whose concatenation is
the original sequence. -/
theorem claim_c8_witness :
    batches [0, 1, 2, 3, 4, 5, 6] 3 = some [[0, 1, 2], [3, 4, 5], [6]] ∧
    [[0, 1, 2], [3, 4, 5], [6]].map List.length = [3, 3, 1] ∧
    (∃ bs, batches [0, 1, 2, 3, 4, 5, 6] 3 = some bs ∧
      bs.length = ([0, 1, 2, 3, 4, 5, 6].length + 3 - 1) / 3 ∧
      bs.flatten = [0, 1, 2, 3, 4, 5, 6] ∧
      (∀ c ∈ bs.dropLast, c.length = 3) ∧
      ([0, 1, 2, 3, 4, 5, 6] ≠ [] → ∃ lc, bs.getLast? = some lc ∧
        lc.length = [0, 1, 2, 3, 4, 5, 6].length - 3 * (bs.length - 1))) :=
  ⟨by decide, by decide, claim_c8 [0, 1, 2, 3, 4, 5, 6] 3 (by decide)⟩

theorem sjoin_append (l1 l2 : List String) : sjoin (l1 ++ l2) = sjoin l1 ++ sjoin l2 := by
  induction l1 with
  | nil => simp [sjoin, String.empty_append]
  | cons s rest ih => simp [sjoin, ih, String.append_assoc]

theorem sjoin_eq_empty_of_all {α : Type} (f : α → String) (l : List α)
    (h : ∀ x ∈ l, f x = "") : sjoin (l.map f) = "" := by
  induction l with
  | nil => rfl
  | cons x rest ih =>
    simp only [List.map_cons, sjoin]
    rw [h x (List.mem_cons_self x rest), ih (fun y hy => h y (List.mem_cons_of_mem x hy)),
      String.append_empty]

theorem sjoin_split (f : Element → String) {l : List Element} {sec : Element}
    (h : sec ∈ l) : ∃ pre post, sjoin (l.map f) = pre ++ f sec ++ post := by
  obtain ⟨s, t, rfl⟩ := List.append_of_mem h
  refine ⟨sjoin (s.map f), sjoin (t.map f), ?_⟩
  rw [List.map_append, sjoin_append, List.map_cons]
  simp only [sjoin, String.append_assoc]

/-- The condition under which `helpers.getSection` classifies a section into
the bucket for `name`: a direct `title` child exists, and the lower-cased
*direct* text of the first one (`sec.findtext('title').lower()`) contains
`name` as a substring. -/
def sectionMatches (sec : Element) (name : String) : Bool :=
  match (findall sec [Step.child "title" []]).head? with
  | none => false
  | some title => strContains (pyLower (title.text.getD "")) name

theorem sectionContribution_of_matches (sec : Element) (name : String)
    (h : sectionMatches sec name = true) :
    ∃ title, (findall sec [Step.child "title" []]).head? = some title ∧
      sectionContribution sec name = renderText title ++ ": " ++
        sjoin ((findall sec [Step.desc "p" []]).map (fun p => renderText p ++ "\n\n")) := by
  unfold sectionMatches at h
  cases ht : (findall sec [Step.child "title" []]).head? with
  | none =>
    rw [ht] at h
    exact (Bool.false_ne_true h).elim
  | some title =>
    rw [ht] at h
    have h2 : strContains (pyLower (title.text.getD "")) name = true := h
    refine ⟨title, rfl, ?_⟩
    unfold sectionContribution
    rw [ht]
    exact if_pos h2

theorem sectionContribution_of_not_matches (sec : Element) (name : String)
    (h : sectionMatches sec name = false) :
    sectionContribution sec name = "" := by
  unfold sectionMatches at h
  unfold sectionContribution
  cases ht : (findall sec [Step.child "title" []]).head? with
  | none => rfl
  | some title =>
    rw [ht] at h
    have h2 : strContains (pyLower (title.text.getD "")) name = false := h
    exact if_neg (by simp [h2])

theorem sectionContribution_length (sec : Element) (name : String)
    (h : sectionMatches sec name = true) :
    sectionContribution sec name ≠ "" := by
  obtain ⟨title, _, hc⟩ := sectionContribution_of_matches sec name h
  rw [hc]
  intro he
  have hl := congrArg String.length he
  rw [String.length_append, String.length_append] at hl
  have h2 : (": " : String).length = 2 := rfl
  have h0 : ("" : String).length = 0 := rfl
  rw [h2, h0] at hl
  omega

theorem string_eq_empty_of_length (s : String) (h : s.length = 0) : s = "" := by
  cases s with
  | mk data =>
    have hdata : data = [] := List.length_eq_zero.mp h
    subst hdata
    rfl

theorem getSection_some_of_matches (e : Element) (path : List Step) (d : Option String)
    (name : String) (sec : Element) (hmem : sec ∈ findall e path)
    (hmatch : sectionMatches sec name = true) :
    ∃ s, getSection e path name d = some s ∧
      ∃ pre post, s = pre ++ sectionContribution sec name ++ post := by
  obtain ⟨pre, post, hsplit⟩ := sjoin_split (fun x => sectionContribution x name) hmem
  refine ⟨sjoin ((findall e path).map (fun x => sectionContribution x name)), ?_, pre, post, hsplit⟩
  unfold getSection
  rw [if_neg]
  intro hlen
  apply sectionContribution_length sec name hmatch
  rw [hsplit, String.length_append, String.length_append] at hlen
  exact string_eq_empty_of_length _ (by omega)

theorem getSection_default_of_none_matches (e : Element) (path : List Step)
    (d : Option String) (name : String)
    (h : ∀ sec ∈ findall e path, sectionMatches sec name = false) :
    getSection e path name d = d := by
  unfold getSection
  rw [sjoin_eq_empty_of_all _ _ (fun sec hs => sectionContribution_of_not_matches sec name (h sec hs))]
  rfl

/-- C1: the five canonical-section passes of `getBodySections` are five
independent `getSection` walks over the same matched section list; within one
pass, any section whose lower-cased title text contains the canonical `name`
as a substring contributes its rendered chunk to that pass's bucket (so a
section whose title contains two canonical names contributes to both buckets,
once per pass), and the bucket is non-absent. -/
theorem claim_c1 (e : Element) (path : List Step) (d : Option String)
    (sec : Element) (name : String)
    (hmem : sec ∈ findall e path) (hmatch : sectionMatches sec name = true) :
    (∃ s, getSection e path name d = some s ∧
      ∃ pre post, s = pre ++ sectionContribution sec name ++ post) ∧
    getBodySections e path d =
      (getSection e path "introduction" d, getSection e path "methods" d,
       getSection e path "results" d, getSection e path "discussion" d,
       getSection e path "conclusion" d) :=
  ⟨getSection_some_of_matches e path d name sec hmem hmatch, rfl⟩

def secMM : Element :=
  mkEl "sec" [] none [mkEl "title" [] (some "Methods and Materials") [] none] none

def secRD : Element :=
  mkEl "sec" [] none [mkEl "title" [] (some "Results and Discussion") [] none] none

def docMMRD : Element :=
  mkEl "article" [] none [mkEl "body" [] none [secMM, secRD] none] none

def bodySecPath : List Step := [Step.desc "body" [], Step.child "sec" []]

/-- Witness for C1: in a document whose body has a section titled
"Methods and Materials" and a section titled "Results and Discussion", the
first contributes to the "methods" bucket and the second to both the
"results" and the "discussion" buckets; concretely, `getBodySections`
populates exactly those three buckets. -/
theorem claim_c1_witness :
    (sectionMatches secMM "methods" = true ∧
     sectionMatches secRD "results" = true ∧
     sectionMatches secRD "discussion" = true) ∧
    (∃ s, getSection docMMRD bodySecPath "methods" none = some s ∧
      ∃ pre post, s = pre ++ sectionContribution secMM "methods" ++ post) ∧
    (∃ s, getSection docMMRD bodySecPath "results" none = some s ∧
      ∃ pre post, s = pre ++ sectionContribution secRD "results" ++ post) ∧
    (∃ s, getSection docMMRD bodySecPath "discussion" none = some s ∧
      ∃ pre post, s = pre ++ sectionContribution secRD "discussion" ++ post) ∧
    getBodySections docMMRD bodySecPath none =
      (none, some "Methods and Materials: ", some "Results and Discussion: ",
       some "Results and Discussion: ", none) :=
  ⟨⟨by decide, by decide, by decide⟩,
   (claim_c1 docMMRD bodySecPath none secMM "methods"
     (List.mem_cons_self _ _) (by decide)).1,
   (claim_c1 docMMRD bodySecPath none secRD "results"
     (List.mem_cons_of_mem _ (List.mem_cons_self _ _)) (by decide)).1,
   (claim_c1 docMMRD bodySecPath none secRD "discussion"
     (List.mem_cons_of_mem _ (List.mem_cons_self _ _)) (by decide)).1,
   by decide⟩

def ttlSplit : Element :=
  mkEl "title" [] (some "Metho") [mkEl "xref" [] none [] (some "ds")] none

def secSplit : Element := mkEl "sec" [] none [ttlSplit] none

def docSplit : Element :=
  mkEl "article" [] none [mkEl "body" [] none [secSplit] none] none

/-- C9 counterexample: for the claim's own example — a title with direct text
"Metho" and an inline child whose tail is "ds" — the rendered title is
"Metho ds" (fragments are space-joined), and that rendering does *not*
contain the keyword "methods", contrary to the claim's clause "even though
its rendered title contains the keyword". -/
theorem claim_c9_cex :
    renderText ttlSplit = "Metho ds" ∧
    strContains (pyLower (renderText ttlSplit)) "methods" = false := by
  constructor
  · decide
  · decide

/-- C9 (amended): the canonical-name match predicate of `getSection` tests
only the first title child's *direct* text (`findtext`): if no section's
direct title text lower-cased contains `name` — regardless of what the full
`itertext` renderings of the titles contain — the bucket stays at the
default.  In particular the "Metho"+"ds" split section is not classified
into the "methods" bucket. -/
theorem claim_c9 (e : Element) (path : List Step) (d : Option String) (name : String)
    (h : ∀ sec ∈ findall e path,
      ((findall sec [Step.child "title" []]).head?.all
        (fun title => !(strContains (pyLower (title.text.getD "")) name))) = true) :
    getSection e path name d = d := by
  apply getSection_default_of_none_matches
  intro sec hs
  have hsec := h sec hs
  unfold sectionMatches
  cases ht : (findall sec [Step.child "title" []]).head? with
  | none => rfl
  | some title =>
    rw [ht] at hsec
    have : (!(strContains (pyLower (title.text.getD "")) name)) = true := hsec
    have h2 : strContains (pyLower (title.text.getD "")) name = false := by
      simpa using this
    exact h2

/-- Witness for C9: the split-keyword document's "methods" bucket is absent,
even though the rendered title is "Metho ds". -/
theorem claim_c9_witness :
    getSection docSplit bodySecPath "methods" none = none ∧
    renderText ttlSplit = "Metho ds" :=
  ⟨claim_c9 docSplit bodySecPath none "methods" (by decide), by decide⟩

/-- C10: a section whose title matches the canonical `name` but which has
zero `p` descendants still contributes exactly its rendered title followed
by `": "`; the bucket is therefore non-absent, and when that section is the
only matched one the whole field equals the rendered title followed by
`": "` (a non-empty string ending in `": "`). -/
theorem claim_c10 (e : Element) (path : List Step) (d : Option String) (name : String)
    (sec title : Element)
    (hmem : sec ∈ findall e path)
    (htitle : (findall sec [Step.child "title" []]).head? = some title)
    (hmatch : strContains (pyLower (title.text.getD "")) name = true)
    (hnop : findall sec [Step.desc "p" []] = []) :
    sectionContribution sec name = renderText title ++ ": " ∧
    (∃ s, getSection e path name d = some s ∧
      ∃ pre post, s = pre ++ (renderText title ++ ": ") ++ post) ∧
    (findall e path = [sec] →
      getSection e path name d = some (renderText title ++ ": ") ∧
      renderText title ++ ": " ≠ "") := by
  have hm : sectionMatches sec name = true := by
    unfold sectionMatches
    rw [htitle]
    exact hmatch
  obtain ⟨title2, ht2, hc⟩ := sectionContribution_of_matches sec name hm
  have htt : title2 = title := by
    rw [htitle] at ht2
    exact (Option.some.inj ht2).symm
  subst htt
  have hcontrib : sectionContribution sec name = renderText title2 ++ ": " := by
    rw [hc, hnop]
    simp only [List.map_nil, sjoin]
    rw [String.append_empty]
  have hne : renderText title2 ++ ": " ≠ "" := by
    intro he
    have hl := congrArg String.length he
    rw [String.length_append] at hl
    have h2 : (": " : String).length = 2 := rfl
    have h0 : ("" : String).length = 0 := rfl
    rw [h2, h0] at hl
    omega
  refine ⟨hcontrib, ?_, ?_⟩
  · obtain ⟨s, hs, pre, post, hsplit⟩ := getSection_some_of_matches e path d name sec hmem hm
    exact ⟨s, hs, pre, post, by rw [← hcontrib]; exact hsplit⟩
  · intro hone
    refine ⟨?_, hne⟩
    have hsj : sjoin (List.map (fun x => sectionContribution x name) [sec]) =
        renderText title2 ++ ": " := by
      simp only [List.map_cons, List.map_nil, sjoin, hcontrib, String.append_empty]
    unfold getSection
    rw [hone, hsj, if_neg]
    intro hlen
    exact hne (string_eq_empty_of_length _ hlen)

def ttlNoP : Element := mkEl "title" [] (some "Methods") [] none

def secNoP : Element := mkEl "sec" [] none [ttlNoP] none

def docNoP : Element :=
  mkEl "article" [] none [mkEl "body" [] none [secNoP] none] none

/-- Witness for C10: a lone "Methods" section with no paragraphs yields a
"methods" field of exactly "Methods: " — non-absent, non-empty, ending in
`": "` — and the PMC record's methods field agrees. -/
theorem claim_c10_witness :
    getSection docNoP bodySecPath "methods" none = some "Methods: " ∧
    ("Methods: " : String) ≠ "" ∧
    (∃ pre, ("Methods: " : String) = pre ++ ": ") ∧
    (pmcExtractBodySections docNoP).2.1 = some "Methods: " := by
  refine ⟨?_, by decide, ⟨"Methods", rfl⟩, by decide⟩
  have h := (claim_c10 docNoP bodySecPath none "methods" secNoP ttlNoP
    (List.mem_cons_self _ _) rfl (by decide) rfl).2.2 rfl
  exact h.1.trans (by decide)

def docC2 : Element := mkEl "root" [] none [mkEl "A" [] none [] none] none

/-- C2 counterexample: when nodes match the selector but every matched node
carries no text, `getContent` returns the empty string, not the supplied
default: here one `A` child with `text = None` matches, and the result is
`some ""` while the default is `some "D"`. -/
theorem claim_c2_cex :
    (findall docC2 [Step.child "A" []]).length = 1 ∧
    (∀ x ∈ findall docC2 [Step.child "A" []], x.text = none) ∧
    getContent docC2 [Step.child "A" []] (some "D") "\n" = some "" ∧
    (some "" : Option String) ≠ some "D" := by
  refine ⟨rfl, ?_, rfl, by decide⟩
  intro x hx
  have : x = mkEl "A" [] none [] none := by
    cases hx with
    | head => rfl
    | tail _ h => cases h
  rw [this]
  rfl

/-- C2 (amended): `getContent` returns the joiner-join of the direct texts of
the matched nodes that carry text; it returns the default in exactly one
case — zero nodes match the selector.  When nodes match but every matched
node carries no text it returns the empty string (the join of zero texts),
not the default. -/
theorem claim_c2 (e : Element) (path : List Step) (d : Option String) (sep : String) :
    (findall e path = [] → getContent e path d sep = d) ∧
    (findall e path ≠ [] → (∀ x ∈ findall e path, x.text = none) →
      getContent e path d sep = some "") ∧
    (findall e path ≠ [] →
      getContent e path d sep = some (joinSep sep ((findall e path).filterMap Element.text))) := by
  refine ⟨?_, ?_, ?_⟩
  · intro h
    unfold getContent
    rw [h]
    rfl
  · intro hne hall
    unfold getContent
    rw [if_neg (by simp [List.length_eq_zero, hne])]
    have : (findall e path).filterMap Element.text = [] := by
      rw [List.filterMap_eq_nil_iff]
      exact hall
    rw [this]
    rfl
  · intro hne
    unfold getContent
    rw [if_neg (by simp [List.length_eq_zero, hne])]

/-- Witness for C2 (amended) at the concrete all-text-missing input. -/
theorem claim_c2_witness :
    getContent docC2 [Step.child "A" []] (some "D") "\n" = some "" :=
  (claim_c2 docC2 [Step.child "A" []] (some "D") "\n").2.1
    (List.cons_ne_nil _ _)
    (by decide)

def docC5 : Element :=
  mkEl "article" [] none
    [mkEl "KeywordList" [] none
      [mkEl "Keyword" [] (some "a") [] none, mkEl "Keyword" [] none [] none] none] none

/-- C5 counterexample: keyword extraction does *not* drop matched nodes that
carry no text — the `if keyword is not None` guard in the comprehension is
always true, so a textless keyword node contributes a `None` placeholder
entry: with two matched `Keyword` nodes, the first with text "a" and the
second with none, the result is `[some "a", none]`, not `[some "a"]`. -/
theorem claim_c5_cex :
    pubmedExtractKeywords docC5 = [some "a", none] ∧
    pubmedExtractKeywords docC5 ≠ [some "a"] ∧
    none ∈ pubmedExtractKeywords docC5 := by
  refine ⟨rfl, by decide, by decide⟩

/-- C5 (amended): keyword extraction returns, in document order, the direct
text of *every* matched keyword node — one entry per matched node, a node
with no text contributing a `None` placeholder (nothing is dropped). -/
theorem claim_c5 (e : Element) (i : Nat) :
    (pubmedExtractKeywords e).length = (findall e [Step.desc "Keyword" []]).length ∧
    (pubmedExtractKeywords e)[i]? =
      ((findall e [Step.desc "Keyword" []])[i]?).map Element.text ∧
    (pmcExtractKeywords e).length =
      (findall e [Step.desc "kwd-group" [], Step.child "kwd" []]).length ∧
    (pmcExtractKeywords e)[i]? =
      ((findall e [Step.desc "kwd-group" [], Step.child "kwd" []])[i]?).map Element.text := by
  refine ⟨List.length_map _ _, List.getElem?_map _ _ _, List.length_map _ _,
    List.getElem?_map _ _ _⟩

def docC6 : Element :=
  mkEl "article" [] none [mkEl "body" [] none [mkEl "p" [] (some "x") [] none] none] none

/-- C6 counterexample: a document whose body contains zero section nodes but
a bare paragraph child has all five canonical fields absent, yet the
whole-body field is `some "x\n\n"` — not absent, contradicting the claim
that the whole-body field also resolves to the absent default. -/
theorem claim_c6_cex :
    findall docC6 [Step.desc "body" [], Step.child "sec" []] = [] ∧
    (∀ b ∈ findall docC6 [Step.desc "body" []],
      findall b [Step.desc "sec" []] = []) ∧
    pmcExtractBodySections docC6 = (none, none, none, none, none) ∧
    pmcExtractBody docC6 = some "x\n\n" ∧
    some "x\n\n" ≠ (none : Option String) := by
  refine ⟨rfl, ?_, rfl, rfl, by decide⟩
  intro b hb
  have : b = mkEl "body" [] none [mkEl "p" [] (some "x") [] none] none := by
    cases hb with
    | head => rfl
    | tail _ h => cases h
  rw [this]
  rfl

theorem getSection_of_findall_nil (e : Element) (path : List Step) (name : String)
    (d : Option String) (h : findall e path = []) : getSection e path name d = d := by
  unfold getSection
  rw [h]
  rfl

/-- C6 (amended): when the document's body-section selector matches nothing
(a body with zero section nodes), all five canonical section fields resolve
to the absent default; the whole-body field additionally resolves to the
absent default when each matched body node has no child elements at all — a
body with zero sections but some non-section child (e.g. a bare paragraph)
instead yields a non-absent whole-body rendering of those children. -/
theorem claim_c6 (e : Element) (d : Option String) :
    (findall e [Step.desc "body" [], Step.child "sec" []] = [] →
      getBodySections e [Step.desc "body" [], Step.child "sec" []] d = (d, d, d, d, d)) ∧
    ((∀ b ∈ findall e [Step.desc "body" []], b.childList.isEmpty = true) →
      getBody e [Step.desc "body" []] d = d) := by
  constructor
  · intro h
    unfold getBodySections
    rw [getSection_of_findall_nil _ _ _ _ h, getSection_of_findall_nil _ _ _ _ h,
      getSection_of_findall_nil _ _ _ _ h, getSection_of_findall_nil _ _ _ _ h,
      getSection_of_findall_nil _ _ _ _ h]
  · intro h
    unfold getBody
    have hs : sjoin ((findall e [Step.desc "body" []]).map (fun top =>
        if ((findall top [Step.child "sec" []]).head?).isSome then
          sjoin ((findall top [Step.desc "sec" []]).map bodySecChunk)
        else
          sjoin (top.childList.map (fun sub => renderText sub ++ "\n\n")))) = "" := by
      apply sjoin_eq_empty_of_all
      intro top htop
      have hcl : top.childList = [] := List.isEmpty_iff.mp (h top htop)
      have hsec : findall top [Step.child "sec" []] = [] := by
        simp [findall, applyStep, hcl]
      rw [hsec, hcl]
      rfl
    rw [hs]
    rfl

def docEmptyBody : Element := mkEl "article" [] none [mkEl "body" [] none [] none] none

/-- Witness for C6 (amended): an empty body yields all five canonical fields
and the whole-body field absent. -/
theorem claim_c6_witness :
    getBodySections docEmptyBody [Step.desc "body" [], Step.child "sec" []] none =
      (none, none, none, none, none) ∧
    getBody docEmptyBody [Step.desc "body" []] none = none :=
  ⟨(claim_c6 docEmptyBody none).1 rfl,
   (claim_c6 docEmptyBody none).2 (by decide)⟩

theorem foldl_pick_none {α : Type} (p : α → Bool) (l : List α) (acc : Option α)
    (h : ∀ x ∈ l, p x = false) :
    List.foldl (fun a d => if p d then some d else a) acc l = acc := by
  induction l generalizing acc with
  | nil => rfl
  | cons x rest ih =>
    rw [List.foldl_cons, if_neg (by simp [h x (List.mem_cons_self x rest)])]
    exact ih acc (fun y hy => h y (List.mem_cons_of_mem x hy))

theorem foldl_pick_some {α : Type} (p : α → Bool) (l : List α) (acc : Option α)
    (h : ∃ x ∈ l, p x = true) :
    ∃ y, List.foldl (fun a d => if p d then some d else a) acc l = some y ∧
      y ∈ l ∧ p y = true := by
  induction l generalizing acc with
  | nil => obtain ⟨x, hx, _⟩ := h; cases hx
  | cons x rest ih =>
    by_cases hr : ∃ y ∈ rest, p y = true
    · obtain ⟨y, hy1, hy2, hy3⟩ := ih (if p x then some x else acc) hr
      exact ⟨y, by rw [List.foldl_cons]; exact hy1, List.mem_cons_of_mem x hy2, hy3⟩
    · have hpx : p x = true := by
        obtain ⟨z, hz, hpz⟩ := h
        cases hz with
        | head => exact hpz
        | tail _ hz2 => exact absurd ⟨z, hz2, hpz⟩ hr
      push_neg at hr
      refine ⟨x, ?_, List.mem_cons_self x rest, hpx⟩
      rw [List.foldl_cons, if_pos hpx]
      exact foldl_pick_none p rest (some x) (fun y hy => by
        have := hr y hy
        simp at this ⊢
        exact this)

/-- C3: `PMCArticle._extractPublicationDate` selects the publication-date
node with this priority: some `pub-date` node whose `pub-type` attribute is
"epub" whenever one exists (the loop keeps the last such node); otherwise
the first `pub-date` node with `date-type="pub"` and
`publication-format="electronic"`; otherwise the first `pub-date` node in
document order. -/
theorem claim_c3 (e : Element) :
    ((∃ x ∈ findall e [Step.desc "pub-date" []], x.attr "pub-type" = some "epub") →
      ∃ sel, pmcSelectedDateNode e = some sel ∧
        sel ∈ findall e [Step.desc "pub-date" []] ∧
        sel.attr "pub-type" = some "epub") ∧
    ((∀ x ∈ findall e [Step.desc "pub-date" []], x.attr "pub-type" ≠ some "epub") →
      ∀ d0, findFirst e [Step.desc "pub-date"
          [("date-type", "pub"), ("publication-format", "electronic")]] = some d0 →
        pmcSelectedDateNode e = some d0) ∧
    ((∀ x ∈ findall e [Step.desc "pub-date" []], x.attr "pub-type" ≠ some "epub") →
      findFirst e [Step.desc "pub-date"
          [("date-type", "pub"), ("publication-format", "electronic")]] = none →
      pmcSelectedDateNode e = (findall e [Step.desc "pub-date" []]).head?) := by
  refine ⟨?_, ?_, ?_⟩
  · intro ⟨x, hx, hattr⟩
    obtain ⟨y, hy1, hy2, hy3⟩ := foldl_pick_some
      (fun d => d.attr "pub-type" == some "epub")
      (findall e [Step.desc "pub-date" []]) none ⟨x, hx, by simp [hattr]⟩
    refine ⟨y, ?_, hy2, by simpa using hy3⟩
    simp only [pmcSelectedDateNode]
    rw [hy1]
  · intro hall d0 hd0
    simp only [pmcSelectedDateNode]
    rw [foldl_pick_none _ _ none (fun x hx => by
      rw [beq_eq_false_iff_ne]
      exact hall x hx)]
    rw [hd0]
  · intro hall hnone
    simp only [pmcSelectedDateNode]
    rw [foldl_pick_none _ _ none (fun x hx => by
      rw [beq_eq_false_iff_ne]
      exact hall x hx)]
    rw [hnone]

def dateEpub : Element :=
  mkEl "pub-date" [("pub-type", "epub")] none [mkEl "year" [] (some "2020") [] none] none

def datePpub : Element := mkEl "pub-date" [("pub-type", "ppub")] none [] none

def dateUntyped : Element := mkEl "pub-date" [] none [] none

def docDates : Element := mkEl "article" [] none [dateEpub, datePpub, dateUntyped] none

/-- Witness for C3 at the spec's concrete scenario: given three date nodes
tagged electronic-pub, print-pub and untyped, in that document order, the
electronic-pub node is selected (and here parses to 2020-01-01). -/
theorem claim_c3_witness :
    (∃ sel, pmcSelectedDateNode docDates = some sel ∧
      sel ∈ findall docDates [Step.desc "pub-date" []] ∧
      sel.attr "pub-type" = some "epub") ∧
    pmcSelectedDateNode docDates = some dateEpub ∧
    pmcExtractPublicationDate docDates = some (PyDate.mk 2020 1 1) :=
  ⟨(claim_c3 docDates).1 ⟨dateEpub, List.mem_cons_self _ _, rfl⟩, rfl, by decide⟩

/-- The ways the year/month/day extraction under a selected date node can
fail: a part fails integer parsing (including an absent year, since
`int(None)` raises), or all three parse but `datetime.date` rejects the
triple. -/
def datePartsFail (pd : Element) (ytag mtag dtag : String) : Prop :=
  pyIntOpt (getContent pd [Step.desc ytag []] none "\n") = none ∨
  pyIntOpt (getContent pd [Step.desc mtag []] (some "1") "\n") = none ∨
  pyIntOpt (getContent pd [Step.desc dtag []] (some "1") "\n") = none ∨
  (∃ y m dd : Int,
    pyIntOpt (getContent pd [Step.desc ytag []] none "\n") = some y ∧
    pyIntOpt (getContent pd [Step.desc mtag []] (some "1") "\n") = some m ∧
    pyIntOpt (getContent pd [Step.desc dtag []] (some "1") "\n") = some dd ∧
    validDate y m dd = false)

theorem dateOfNode_none (pd : Element) (ytag mtag dtag : String)
    (h : datePartsFail pd ytag mtag dtag) : dateOfNode pd ytag mtag dtag = none := by
  unfold dateOfNode
  rcases h with h | h | h | ⟨y, m, dd, hy, hm, hd, hv⟩
  · rw [h]
  · cases hq : pyIntOpt (getContent pd [Step.desc ytag []] none "\n") with
    | none => rfl
    | some y => rw [h]
  · cases hq : pyIntOpt (getContent pd [Step.desc ytag []] none "\n") with
    | none => rfl
    | some y =>
      cases hq2 : pyIntOpt (getContent pd [Step.desc mtag []] (some "1") "\n") with
      | none => rfl
      | some m => rw [h]
  · rw [hy, hm, hd]
    simp [hv]

/-- C4: in either schema, when the year, month or day under the selected
date node fails integer parsing, or the parsed triple is not a valid
calendar date, the whole date resolution yields the absent value (never a
partial date, never an exception); and every other field of the record is
computed by its own extractor from the same element, independent of the
date resolution. -/
theorem claim_c4 (e pd : Element) :
    (pubmedSelectedDateNode e = some pd → datePartsFail pd "Year" "Month" "Day" →
      pubmedExtractPublicationDate e = none) ∧
    (pmcSelectedDateNode e = some pd → datePartsFail pd "year" "month" "day" →
      pmcExtractPublicationDate e = none) ∧
    (pubmedInit e).pubmed_id = pubmedExtractPubMedId e ∧
    (pubmedInit e).title = pubmedExtractTitle e ∧
    (pubmedInit e).abstract = pubmedExtractAbstract e ∧
    (pubmedInit e).keywords = pubmedExtractKeywords e ∧
    (pubmedInit e).journal = pubmedExtractJournal e ∧
    (pubmedInit e).authors = pubmedExtractAuthors e ∧
    (pubmedInit e).copyrights = pubmedExtractCopyrights e ∧
    (pubmedInit e).doi = pubmedExtractDoi e ∧
    (pmcInit e).pubmed_id = pmcExtractPubMedId e ∧
    (pmcInit e).title = pmcExtractTitle e ∧
    (pmcInit e).abstract = pmcExtractAbstract e ∧
    (pmcInit e).keywords = pmcExtractKeywords e ∧
    (pmcInit e).journal = pmcExtractJournal e ∧
    (pmcInit e).authors = pmcExtractAuthors e ∧
    (pmcInit e).body = pmcExtractBody e ∧
    (pmcInit e).copyrights = pmcExtractCopyrights e ∧
    (pmcInit e).doi = pmcExtractDoi e := by
  refine ⟨?_, ?_, rfl, rfl, rfl, rfl, rfl, rfl, rfl, rfl, rfl, rfl, rfl, rfl, rfl,
    rfl, rfl, rfl, rfl⟩
  · intro h1 h2
    unfold pubmedExtractPublicationDate
    rw [h1]
    exact dateOfNode_none pd "Year" "Month" "Day" h2
  · intro h1 h2
    unfold pmcExtractPublicationDate
    rw [h1]
    exact dateOfNode_none pd "year" "month" "day" h2

def pdBadYear : Element :=
  mkEl "PubMedPubDate" [("PubStatus", "pubmed")] none
    [mkEl "Year" [] (some "abcd") [] none] none

def docBadYear : Element :=
  mkEl "article" [] none
    [mkEl "ArticleTitle" [] (some "T") [] none, pdBadYear] none

def pdGoodYear : Element :=
  mkEl "PubMedPubDate" [("PubStatus", "pubmed")] none
    [mkEl "Year" [] (some "2020") [] none] none

def docGoodYear : Element :=
  mkEl "article" [] none
    [mkEl "ArticleTitle" [] (some "T") [] none, pdGoodYear] none

/-- Witness for C4 at the spec's concrete instance: with `year="abcd"` the
publication date of the record is absent while the other fields (here the
title) are populated exactly as in the same document with a valid year. -/
theorem claim_c4_witness :
    pubmedExtractPublicationDate docBadYear = none ∧
    (pubmedInit docBadYear).publication_date = none ∧
    (pubmedInit docBadYear).title = some "T" ∧
    (pubmedInit docGoodYear).publication_date = some (PyDate.mk 2020 1 1) ∧
    (pubmedInit docBadYear).title = (pubmedInit docGoodYear).title :=
  ⟨(claim_c4 docBadYear pdBadYear).1 rfl (Or.inl (by decide)),
   (claim_c4 docBadYear pdBadYear).1 rfl (Or.inl (by decide)),
   by decide, by decide, by decide⟩

def splitNode (tag t u : String) : Element :=
  mkEl tag [] (some t) [mkEl "ref" [] none [] (some u)] none

def docSplitTitle (t u : String) : Element :=
  mkEl "article" [] none
    [mkEl "body" [] none
      [mkEl "sec" [] none [splitNode "title" t u] none] none] none

/-- C7: a node whose logical text is split by an inline child element — a
non-empty direct text `t` followed by an empty inline element with non-empty
tail `u` — renders as the space-join of the individually stripped fragments,
`strip t ++ " " ++ strip u`; and a body section with such a title renders in
the whole-body field as that string followed by `": "`. -/
theorem claim_c7 (tag t u : String) (ht : t ≠ "") (hu : u ≠ "") :
    renderText (splitNode tag t u) = pyStrip t ++ " " ++ pyStrip u ∧
    getBody (docSplitTitle t u) [Step.desc "body" []] none =
      some (pyStrip t ++ " " ++ pyStrip u ++ ": ") := by
  have hit : (splitNode tag t u).itertext = [t, u] := by
    simp only [splitNode, mkEl, Children.ofList, Element.itertext, Children.itertexts,
      Element.tail, optFrag, if_neg ht, if_neg hu]
    simp
  have hrender : renderText (splitNode tag t u) = pyStrip t ++ " " ++ pyStrip u := by
    unfold renderText
    rw [hit]
    simp only [List.map_cons, List.map_nil, joinSep]
  refine ⟨hrender, ?_⟩
  have hrender2 : renderText (splitNode "title" t u) = pyStrip t ++ " " ++ pyStrip u := by
    unfold renderText
    rw [show (splitNode "title" t u).itertext = [t, u] by
      simp only [splitNode, mkEl, Children.ofList, Element.itertext, Children.itertexts,
        Element.tail, optFrag, if_neg ht, if_neg hu]
      simp]
    simp only [List.map_cons, List.map_nil, joinSep]
  have hsj : sjoin ((findall (docSplitTitle t u) [Step.desc "body" []]).map (fun top =>
      if ((findall top [Step.child "sec" []]).head?).isSome then
        sjoin ((findall top [Step.desc "sec" []]).map bodySecChunk)
      else
        sjoin (top.childList.map (fun sub => renderText sub ++ "\n\n")))) =
      pyStrip t ++ " " ++ pyStrip u ++ ": " := by
    calc sjoin ((findall (docSplitTitle t u) [Step.desc "body" []]).map (fun top =>
          if ((findall top [Step.child "sec" []]).head?).isSome then
            sjoin ((findall top [Step.desc "sec" []]).map bodySecChunk)
          else
            sjoin (top.childList.map (fun sub => renderText sub ++ "\n\n"))))
        = (((renderText (splitNode "title" t u) ++ ": ") ++ "") ++ "") ++ "" := by
          with_unfolding_all rfl
      _ = renderText (splitNode "title" t u) ++ ": " := by
          rw [String.append_empty, String.append_empty, String.append_empty]
      _ = pyStrip t ++ " " ++ pyStrip u ++ ": " := by rw [hrender2]
  have hlen : ¬((pyStrip t ++ " " ++ pyStrip u ++ ": ").length = 0) := by
    rw [String.length_append]
    have h2 : (": " : String).length = 2 := rfl
    omega
  unfold getBody
  rw [hsj, if_neg hlen]

/-- Witness for C7 at the spec's concrete instance: the title split as
"Intro" `<ref/>` "duction" renders as "Intro duction" — not "Introduction"
and not empty — and the whole-body field renders it as "Intro duction: ". -/
theorem claim_c7_witness :
    renderText (splitNode "title" "Intro" "duction") = "Intro duction" ∧
    ("Intro duction" : String) ≠ "Introduction" ∧
    ("Intro duction" : String) ≠ "" ∧
    getBody (docSplitTitle "Intro" "duction") [Step.desc "body" []] none =
      some "Intro duction: " := by
  have h := claim_c7 "title" "Intro" "duction" (by decide) (by decide)
  exact ⟨h.1.trans (by decide), by decide, by decide, h.2.trans (by decide)⟩
